import Mathlib

/-!
Verification of the agent-centered transformation pipeline and model
dispatch of the traffic-trajectory-prediction repository.

The numerical code (numpy / torch, float64) is embedded over the real
numbers: arrays become nested lists of real pairs, 3x3 homogeneous
matrices become the `Mat3` structure, and `np.arctan2 y x` becomes the
argument of the complex number `x + y*I`.

Conventions used throughout:
* a 2-d point/vector is a pair `Vec2 = ℝ × ℝ`;
* a batched array of shape `(agents, timesteps, 2)` is a
  `List (List Vec2)`;
* numpy broadcasting of the per-timestep translation matrices over the
  agent axis is rendered as a `zipWith` of each agent's row with the
  target agent's row (faithful on the rectangular arrays numpy accepts:
  `np.array` raises on ragged input);
* `np.where(agent_ids == target_id)[0][0]`, which raises `IndexError`
  when the target id is absent, is rendered as `List.findIdx?` and an
  `Option`-valued `apply`.
-/

/-- A 2-d point or vector (one row of a `(..., 2)` numpy array). -/
abbrev Vec2 : Type := ℝ × ℝ

/-- A homogeneous 3-vector (one row of a homogenized `(..., 3)` array). -/
abbrev Vec3 : Type := ℝ × ℝ × ℝ

/-- A 3x3 matrix, written out entrywise. -/
structure Mat3 where
  m00 : ℝ
  m01 : ℝ
  m02 : ℝ
  m10 : ℝ
  m11 : ℝ
  m12 : ℝ
  m20 : ℝ
  m21 : ℝ
  m22 : ℝ

/-- Matrix-vector product of a `Mat3` with a homogeneous 3-vector
(`np.matmul(M, v)` for a `(3, 3)` and a `(3, 1)` array). -/
def Mat3.mulVec (M : Mat3) (v : Vec3) : Vec3 :=
  (M.m00 * v.1 + M.m01 * v.2.1 + M.m02 * v.2.2,
   M.m10 * v.1 + M.m11 * v.2.1 + M.m12 * v.2.2,
   M.m20 * v.1 + M.m21 * v.2.1 + M.m22 * v.2.2)

/-- The identity matrix `np.eye(3)`. -/
def eye3 : Mat3 := ⟨1, 0, 0, 0, 1, 0, 0, 0, 1⟩

/-- The affine action on a 2-d vector of a `Mat3` whose last column is
`(0, 0, 1)`: just its upper-left 2x2 block applied linearly.  Used to
state what the rotation matrix does to 2-d data. -/
def rot2 (M : Mat3) (v : Vec2) : Vec2 :=
  (M.m00 * v.1 + M.m01 * v.2, M.m10 * v.1 + M.m11 * v.2)

/-- numpy's `np.arctan2 y x`: the angle of the point `(x, y)`, i.e. the
argument of the complex number `x + y*I` (both lie in `(-π, π]` and both
send `(0, 0)` to `0`). -/
noncomputable def arctan2 (y x : ℝ) : ℝ := Complex.arg ⟨x, y⟩

/-- The translation matrix for one timestep: `np.eye(3)` after the
update `translation_transforms[:, :2, 2] -= target_positions`, i.e. the
identity with `-c` written into the upper two entries of the last
column. -/
def translationMat (c : Vec2) : Mat3 := ⟨1, 0, -c.1, 0, 1, -c.2, 0, 0, 1⟩

/-- Pointwise form of `AgentCenter.homogenize_matrix`: the ones column
added along the last axis turns each 2-d row `(x, y)` into `(x, y, 1)`;
the batched function is this map applied to every row. -/
def homogenizeVec (v : Vec2) : Vec3 := (v.1, v.2, 1)

/-- Dropping the homogeneous coordinate: `[..., :2]`. -/
def dehomogenizeVec (v : Vec3) : Vec2 := (v.1, v.2.1)

/-- numpy's `np.diff(l, axis=0)`: successive differences of the rows. -/
def pairwiseDiff {α : Type} [Sub α] (l : List α) : List α :=
  List.zipWith (· - ·) l.tail l

/-- Running sums with accumulator `acc` (helper for `np.cumsum`). -/
def cumsumFrom (acc : Vec2) : List Vec2 → List Vec2
  | [] => []
  | x :: xs => (acc + x) :: cumsumFrom (acc + x) xs

/-- numpy's `np.cumsum` along a list of 2-d rows. -/
def cumsum (l : List Vec2) : List Vec2 := cumsumFrom (0, 0) l

/-- Opaque stand-in for the `batch_metadata` argument that
`AgentCenter.inverse` receives (and ignores). -/
structure Metadata

/-- A single data point of the motion-forecasting dataset, as the dict
that `AgentCenter.apply` reads and writes.  The keys the code never
touches are summarized by the `rest` field of an arbitrary type `ρ`. -/
structure Datum (ρ : Type) where
  track_id : List ℕ
  agent_id : ℕ
  p_in : List (List Vec2)
  v_in : List (List Vec2)
  p_out : List (List Vec2)
  v_out : List (List Vec2)
  lane : List Vec2
  lane_norm : List Vec2
  prediction_correction : List (List Vec2) → Metadata → List (List Vec2)
  rest : ρ

namespace AgentCenter

/-- `AgentCenter.get_rotation_matrix`: `np.eye(3)` with the 2x2 rotation
block for the angle `θ = -arctan2(Δy, Δx) + π/2`, where `(Δx, Δy)` runs
from the first to the last entry of `positions`. -/
noncomputable def get_rotation_matrix (positions : List Vec2) : Mat3 :=
  let first_position := positions.headD (0, 0)
  let last_position := positions.getLastD (0, 0)
  let theta :=
    -arctan2 (last_position.2 - first_position.2)
        (last_position.1 - first_position.1)
      + Real.pi / 2
  { eye3 with
    m00 := Real.cos theta
    m01 := -Real.sin theta
    m10 := Real.sin theta
    m11 := Real.cos theta }

/-- `AgentCenter.inverse`: converts predicted displacements to positions
by `torch.cumsum(batch_predictions, axis=1)`; the metadata argument is
ignored. -/
def inverse (batch_predictions : List (List Vec2))
    (_batch_metadata : Metadata) : List (List Vec2) :=
  batch_predictions.map cumsum

/-- Body of `AgentCenter.apply` once the target agent's index has been
found, following the source line by line: concatenate the input and
output data along the timestep axis, homogenize, build the per-timestep
offsets of the target agent, translate every position by the target
agent's position at the same timestep, rotate positions, velocities,
lanes, lane norms and offsets by the single rotation matrix computed
from the target agent's (untranslated) concatenated positions,
dehomogenize, overwrite the target agent's row with the offsets,
cumulative-sum the output part of the positions, and write the seven
updated keys back into the datum. -/
noncomputable def applyAux {ρ : Type} (datum : Datum ρ)
    (agent_index : ℕ) : Datum ρ :=
  let lanes := datum.lane
  let lane_norms := datum.lane_norm
  let input_length := (datum.p_in.headD []).length
  let positions := List.zipWith (· ++ ·) datum.p_in datum.p_out
  let velocities := List.zipWith (· ++ ·) datum.v_in datum.v_out
  let positions_h := positions.map (List.map homogenizeVec)
  let velocities_h := velocities.map (List.map homogenizeVec)
  let lanes_h := lanes.map homogenizeVec
  let lane_norms_h := lane_norms.map homogenizeVec
  let target_positions := positions.getD agent_index []
  let offsets_h :=
    (0, 0, 0) :: pairwiseDiff (positions_h.getD agent_index [])
  let positions_h :=
    positions_h.map fun row =>
      List.zipWith (fun c v => (translationMat c).mulVec v)
        target_positions row
  let rotation_transforms := get_rotation_matrix target_positions
  let positions_h := positions_h.map (List.map rotation_transforms.mulVec)
  let velocities_h := velocities_h.map (List.map rotation_transforms.mulVec)
  let lanes_h := lanes_h.map rotation_transforms.mulVec
  let lane_norms_h := lane_norms_h.map rotation_transforms.mulVec
  let offsets_h := offsets_h.map rotation_transforms.mulVec
  let positions := positions_h.map (List.map dehomogenizeVec)
  let velocities := velocities_h.map (List.map dehomogenizeVec)
  let lanes := lanes_h.map dehomogenizeVec
  let lane_norms := lane_norms_h.map dehomogenizeVec
  let offsets := offsets_h.map dehomogenizeVec
  let positions := positions.set agent_index offsets
  let p_out := (positions.map (List.drop input_length)).map cumsum
  { datum with
    p_in := positions.map (List.take input_length)
    v_in := velocities.map (List.take input_length)
    p_out := p_out
    v_out := velocities.map (List.drop input_length)
    lane := lanes
    lane_norm := lane_norms
    prediction_correction := inverse }

/-- `AgentCenter.apply`: looks up the target agent's index with
`np.where(track_id == agent_id)[0][0]` (here `List.findIdx?`, with the
`IndexError` on a missing id rendered as `none`) and runs the
transformation body. -/
noncomputable def apply {ρ : Type} (datum : Datum ρ) :
    Option (Datum ρ) :=
  match List.findIdx? (· == datum.agent_id) datum.track_id with
  | some agent_index => some (applyAux datum agent_index)
  | none => none

end AgentCenter

/-- When the target id occurs in `track_id`, `apply` succeeds and runs
the transformation body at the first matching index. -/
theorem AgentCenter.apply_eq_some {ρ : Type} (d : Datum ρ) (i : ℕ)
    (h : List.findIdx? (· == d.agent_id) d.track_id = some i) :
    AgentCenter.apply d = some (AgentCenter.applyAux d i) := by
  unfold AgentCenter.apply
  rw [h]

/-- The part of a model configuration dict that `BaseModel.__init__`
reads: the `"name"` and `"device"` keys. -/
structure ModelConfig where
  name : String
  device : String

/-- Modelled from the spec: the submodels `SimpleMLP` and `Seq2Seq` are
not part of the provided source excerpt (and `SimpleRNN.forward` is a
compiled torch GRU); the spec only names them as the MLP, recurrent and
sequence-to-sequence models that `BaseModel` dispatches between.  Each
submodel is therefore modelled as an abstract forward function
determined by the two constructor configs, which is all the dispatch
claims depend on. -/
structure SubModels (DC I O : Type) where
  simpleMLP : ModelConfig → DC → I → O
  simpleRNN : ModelConfig → DC → I → O
  seq2seq : ModelConfig → DC → I → O

/-- The `BaseModel` object: the attributes its constructor assigns.
The `model` attribute is `Option`-valued because the constructor leaves
it unassigned (Python: a later attribute access raises) when the
configured name matches no branch. -/
structure BaseModel (DC I O : Type) where
  device : String
  model_config : ModelConfig
  data_config : DC
  model : Option (I → O)

/-- `BaseModel.__init__`: stores the configs and dispatches on
`model_config["name"]` to construct the submodel, assigning nothing to
`model` on an unknown name. -/
def BaseModel.init {DC I O : Type} (sub : SubModels DC I O)
    (model_config : ModelConfig) (data_config : DC) : BaseModel DC I O :=
  let model_type := model_config.name
  { device := model_config.device
    model_config := model_config
    data_config := data_config
    model :=
      if model_type = "SimpleMLP" then
        some (sub.simpleMLP model_config data_config)
      else if model_type = "SimpleRNN" then
        some (sub.simpleRNN model_config data_config)
      else if model_type = "Seq2Seq" then
        some (sub.seq2seq model_config data_config)
      else none }

/-- `BaseModel.forward`: calls `self.model(x)`; the attribute access on
an unassigned `model` (Python `AttributeError`) is rendered as `none`. -/
def BaseModel.forward {DC I O : Type} (self : BaseModel DC I O) (x : I) :
    Option O :=
  match self.model with
  | some m => some (m x)
  | none => none

/-- A lane row `(x, y, dx, dy)` as consumed by `angle_filter`
(`lane_encoder` documents the 4 dims as x, y, dx, dy). -/
abbrev Vec4 : Type := ℝ × ℝ × ℝ × ℝ

/-- `angle_filter`: for each batch element, keeps exactly the lane rows
whose norm direction `atan2(norm_y, norm_x)` (columns 2 and 3 of the
row) is strictly positive. -/
noncomputable def angle_filter (lanes : List (List Vec4)) :
    List (List Vec4) :=
  lanes.map fun batch_lanes =>
    batch_lanes.filter fun row =>
      @decide (arctan2 row.2.2.2 row.2.2.1 > 0) (Classical.propDecidable _)

section ListLemmas

variable {α β γ : Type}

/-- `getD` after `map`, at an in-range index. -/
theorem getD_map_of_lt (f : α → β) (d₁ : α) (d₂ : β) :
    ∀ (l : List α) (i : ℕ), i < l.length →
      (l.map f).getD i d₂ = f (l.getD i d₁)
  | [], i, h => absurd h (by simp)
  | x :: xs, 0, _ => rfl
  | x :: xs, i + 1, h =>
    getD_map_of_lt f d₁ d₂ xs i (Nat.lt_of_succ_lt_succ h)

/-- `getD` after `zipWith`, at an index in range of both lists. -/
theorem getD_zipWith_of_lt (f : α → β → γ) (d₁ : α) (d₂ : β) (d₃ : γ) :
    ∀ (l₁ : List α) (l₂ : List β) (i : ℕ),
      i < l₁.length → i < l₂.length →
      (List.zipWith f l₁ l₂).getD i d₃ = f (l₁.getD i d₁) (l₂.getD i d₂)
  | [], _, i, h₁, _ => absurd h₁ (by simp)
  | _ :: _, [], i, _, h₂ => absurd h₂ (by simp)
  | x :: xs, y :: ys, 0, _, _ => rfl
  | x :: xs, y :: ys, i + 1, h₁, h₂ =>
    getD_zipWith_of_lt f d₁ d₂ d₃ xs ys i
      (Nat.lt_of_succ_lt_succ h₁) (Nat.lt_of_succ_lt_succ h₂)

/-- `getD` after `set` at a different index. -/
theorem getD_set_ne (d x : α) :
    ∀ (l : List α) (i j : ℕ), i ≠ j →
      (l.set i x).getD j d = l.getD j d
  | [], _, _, _ => by simp
  | _ :: _, 0, 0, h => absurd rfl h
  | _ :: _, 0, j + 1, _ => rfl
  | _ :: _, i + 1, 0, _ => rfl
  | _ :: xs, i + 1, j + 1, h =>
    getD_set_ne d x xs i j fun hij => h (by omega)

/-- `getD` after `set` at the written (in-range) index. -/
theorem getD_set_self (d x : α) :
    ∀ (l : List α) (i : ℕ), i < l.length →
      (l.set i x).getD i d = x
  | [], i, h => absurd h (by simp)
  | _ :: _, 0, _ => rfl
  | _ :: xs, i + 1, h =>
    getD_set_self d x xs i (Nat.lt_of_succ_lt_succ h)

/-- `getD` after `take`, below the cut. -/
theorem getD_take_of_lt (d : α) :
    ∀ (l : List α) (n i : ℕ), i < n →
      (l.take n).getD i d = l.getD i d
  | [], _, _, _ => by simp
  | _ :: _, 0, i, h => absurd h (by omega)
  | _ :: _, n + 1, 0, _ => rfl
  | _ :: xs, n + 1, i + 1, h =>
    getD_take_of_lt d xs n i (Nat.lt_of_succ_lt_succ h)

/-- `getD` after `drop`. -/
theorem getD_drop_eq (d : α) :
    ∀ (l : List α) (n i : ℕ), (l.drop n).getD i d = l.getD (n + i) d
  | [], n, i => by simp
  | _ :: _, 0, i => by simp
  | _ :: xs, n + 1, i => by
    rw [List.drop_succ_cons, getD_drop_eq d xs n i, Nat.succ_add,
      List.getD_cons_succ]

/-- `getD` of the tail shifts the index by one. -/
theorem getD_tail_eq (d : α) (l : List α) (i : ℕ) :
    l.tail.getD i d = l.getD (i + 1) d := by
  cases l <;> rfl

/-- In a list whose rows all have length `L`, any in-range row fetched
with `getD` has length `L`. -/
theorem length_getD_of_forall (L : ℕ) (l : List (List α)) (i : ℕ)
    (hlen : ∀ r ∈ l, r.length = L) (hi : i < l.length) :
    (l.getD i []).length = L := by
  rw [List.getD_eq_getElem l [] hi]
  exact hlen _ (l.getElem_mem hi)

/-- An in-range `drop` exposes its head element. -/
theorem drop_eq_getD_cons (d : α) :
    ∀ (l : List α) (i : ℕ), i < l.length →
      l.drop i = l.getD i d :: l.drop (i + 1)
  | [], i, h => absurd h (by simp)
  | _ :: _, 0, _ => rfl
  | _ :: xs, i + 1, h =>
    drop_eq_getD_cons d xs i (Nat.lt_of_succ_lt_succ h)

end ListLemmas

/-- Length of `pairwiseDiff`. -/
theorem length_pairwiseDiff {α : Type} [Sub α] (l : List α) :
    (pairwiseDiff l).length = l.length - 1 := by
  simp [pairwiseDiff, List.length_zipWith, List.length_tail]

/-- Entries of `pairwiseDiff` are the successive differences. -/
theorem getD_pairwiseDiff {α : Type} [Sub α] (d : α) (l : List α)
    (i : ℕ) (h : i + 1 < l.length) :
    (pairwiseDiff l).getD i d = l.getD (i + 1) d - l.getD i d := by
  unfold pairwiseDiff
  rw [getD_zipWith_of_lt _ d d d _ _ _ (by simp [List.length_tail]; omega)
    (by omega), getD_tail_eq]

/-- `pairwiseDiff` after mapping `f` is the map of `g` over the
differences, whenever differences of `f`-values are `g`-values of
differences. -/
theorem pairwiseDiff_map {α β : Type} [Sub α] [Sub β] (f g : α → β)
    (hfg : ∀ a b : α, f a - f b = g (a - b)) :
    ∀ l : List α, pairwiseDiff (l.map f) = (pairwiseDiff l).map g
  | [] => rfl
  | [_] => rfl
  | x :: y :: ys => by
    have ih := pairwiseDiff_map f g hfg (y :: ys)
    simp only [pairwiseDiff, List.map_cons, List.tail_cons,
      List.zipWith_cons_cons] at ih ⊢
    rw [ih, hfg]

/-- Length of `cumsumFrom`. -/
theorem length_cumsumFrom : ∀ (l : List Vec2) (acc : Vec2),
    (cumsumFrom acc l).length = l.length
  | [], _ => rfl
  | x :: xs, acc => by
    simpa [cumsumFrom] using length_cumsumFrom xs (acc + x)

/-- Length of `cumsum`. -/
theorem length_cumsum (l : List Vec2) : (cumsum l).length = l.length :=
  length_cumsumFrom l _

/-- Entries of a cumulative sum of a dropped difference list telescope
back to differences of the underlying list. -/
theorem cumsumFrom_pairwiseDiff_getD :
    ∀ (k j : ℕ) (l : List Vec2) (acc : Vec2), j + k + 1 < l.length →
      (cumsumFrom acc ((pairwiseDiff l).drop j)).getD k 0 =
        acc + l.getD (j + k + 1) 0 - l.getD j 0
  | 0, j, l, acc, h => by
    have hj : j < (pairwiseDiff l).length := by
      rw [length_pairwiseDiff]; omega
    rw [drop_eq_getD_cons 0 _ j hj]
    simp only [cumsumFrom, List.getD_cons_zero]
    rw [getD_pairwiseDiff 0 l j (by omega)]
    show acc + (l.getD (j + 1) 0 - l.getD j 0) =
      acc + l.getD (j + 1) 0 - l.getD j 0
    abel
  | k + 1, j, l, acc, h => by
    have hj : j < (pairwiseDiff l).length := by
      rw [length_pairwiseDiff]; omega
    rw [drop_eq_getD_cons 0 _ j hj]
    simp only [cumsumFrom, List.getD_cons_succ]
    rw [cumsumFrom_pairwiseDiff_getD k (j + 1) l
      (acc + (pairwiseDiff l).getD j 0) (by omega)]
    rw [getD_pairwiseDiff 0 l j (by omega)]
    have hidx : j + 1 + k + 1 = j + (k + 1) + 1 := by omega
    rw [hidx]
    abel

/-- `cumsum` version of the telescoping identity. -/
theorem cumsum_pairwiseDiff_getD (l : List Vec2) (j k : ℕ)
    (h : j + k + 1 < l.length) :
    (cumsum ((pairwiseDiff l).drop j)).getD k 0 =
      l.getD (j + k + 1) 0 - l.getD j 0 := by
  unfold cumsum
  rw [cumsumFrom_pairwiseDiff_getD k j l _ h,
    show (((0 : ℝ), (0 : ℝ)) : Vec2) = 0 from rfl, zero_add]

/-- A 2-d vector as a homogeneous vector with last coordinate `0` (the
shape of a difference of two homogenized rows). -/
def lift0 (v : Vec2) : Vec3 := (v.1, v.2, 0)

/-- Differences of homogenized rows are the lifted differences of the
rows. -/
theorem pairwiseDiff_homog (l : List Vec2) :
    pairwiseDiff (l.map homogenizeVec) = (pairwiseDiff l).map lift0 :=
  pairwiseDiff_map homogenizeVec lift0
    (fun a b => by
      simp only [homogenizeVec, lift0, Prod.mk_sub_mk]
      norm_num) l

/-- The rotation matrix has zeros in its last column's upper entries. -/
theorem get_rotation_matrix_m02 (ps : List Vec2) :
    (AgentCenter.get_rotation_matrix ps).m02 = 0 := rfl

/-- The rotation matrix has zeros in its last column's upper entries. -/
theorem get_rotation_matrix_m12 (ps : List Vec2) :
    (AgentCenter.get_rotation_matrix ps).m12 = 0 := rfl

/-- Dehomogenizing after rotating a homogenized vector is the affine
2-d action, for a matrix with zero translation column. -/
theorem dehom_rot_homog (R : Mat3) (h02 : R.m02 = 0) (h12 : R.m12 = 0)
    (v : Vec2) :
    dehomogenizeVec (R.mulVec (homogenizeVec v)) = rot2 R v := by
  simp only [Mat3.mulVec, homogenizeVec, dehomogenizeVec, rot2, h02, h12,
    Prod.mk.injEq]
  exact ⟨by ring, by ring⟩

/-- Dehomogenizing after rotating a lifted vector is the linear 2-d
action (the last column never contributes against a zero coordinate). -/
theorem dehom_rot_lift0 (R : Mat3) (v : Vec2) :
    dehomogenizeVec (R.mulVec (lift0 v)) = rot2 R v := by
  simp only [Mat3.mulVec, lift0, dehomogenizeVec, rot2, Prod.mk.injEq]
  exact ⟨by ring, by ring⟩

/-- Translating then rotating then dehomogenizing one homogenized point
is the 2-d rotation of the centered point. -/
theorem dehom_rot_trans (R : Mat3) (h02 : R.m02 = 0) (h12 : R.m12 = 0)
    (c v : Vec2) :
    dehomogenizeVec
        (R.mulVec ((translationMat c).mulVec (homogenizeVec v))) =
      rot2 R (v - c) := by
  simp only [Mat3.mulVec, translationMat, homogenizeVec, dehomogenizeVec,
    rot2, h02, h12, Prod.fst_sub, Prod.snd_sub, Prod.mk.injEq]
  exact ⟨by ring, by ring⟩

/-- Homogenize, rotate, dehomogenize, batched over a list of rows. -/
theorem row_rot_eq (R : Mat3) (h02 : R.m02 = 0) (h12 : R.m12 = 0)
    (row : List Vec2) :
    ((row.map homogenizeVec).map R.mulVec).map dehomogenizeVec =
      row.map (rot2 R) := by
  rw [List.map_map, List.map_map]
  exact List.map_congr_left fun v _ => dehom_rot_homog R h02 h12 v

/-- Homogenize, translate against the target row, rotate, dehomogenize,
batched over one agent's row. -/
theorem row_trans_eq (R : Mat3) (h02 : R.m02 = 0) (h12 : R.m12 = 0)
    (tp row : List Vec2) :
    ((List.zipWith (fun c v => (translationMat c).mulVec v) tp
          (row.map homogenizeVec)).map R.mulVec).map dehomogenizeVec =
      List.zipWith (fun c v => rot2 R (v - c)) tp row := by
  rw [List.map_map, List.zipWith_map_right, List.map_zipWith]
  have hfun :
      (fun c v =>
          (dehomogenizeVec ∘ R.mulVec)
            ((translationMat c).mulVec (homogenizeVec v))) =
        fun (c v : Vec2) => rot2 R (v - c) := by
    funext c v
    exact dehom_rot_trans R h02 h12 c v
  rw [hfun]

/-- The rotated, dehomogenized offsets list is the zero row followed by
the rotated successive differences of the target row. -/
theorem offsets_eq (R : Mat3) (tp : List Vec2) :
    ((((0, 0, 0) : Vec3) ::
          pairwiseDiff (tp.map homogenizeVec)).map R.mulVec).map
        dehomogenizeVec =
      ((0 : ℝ), (0 : ℝ)) :: (pairwiseDiff tp).map (rot2 R) := by
  rw [pairwiseDiff_homog, List.map_cons, List.map_cons, List.map_map,
    List.map_map]
  have hhead : dehomogenizeVec (R.mulVec ((0, 0, 0) : Vec3)) =
      ((0 : ℝ), (0 : ℝ)) := by
    simp [Mat3.mulVec, dehomogenizeVec]
  have htail :
      ((dehomogenizeVec ∘ R.mulVec) ∘ lift0) = rot2 R := by
    funext v
    exact dehom_rot_lift0 R v
  rw [hhead, htail]

/-- `rot2` of a matrix is additive in the vector. -/
theorem rot2_sub (R : Mat3) (a b : Vec2) :
    rot2 R (a - b) = rot2 R a - rot2 R b := by
  simp only [rot2, Prod.fst_sub, Prod.snd_sub, Prod.mk_sub_mk,
    Prod.mk.injEq]
  exact ⟨by ring, by ring⟩

/-- `getD` on a batch of mapped rows with the empty row as default. -/
theorem getD_map_nil {α β : Type} (f : α → β) :
    ∀ (l : List (List α)) (i : ℕ),
      (l.map (List.map f)).getD i [] = (l.getD i []).map f
  | [], _ => by simp
  | _ :: _, 0 => rfl
  | _ :: xs, i + 1 => getD_map_nil f xs i

/-- Homogenize, rotate, dehomogenize over a whole batch of rows. -/
theorem batch_rot_eq (R : Mat3) (h02 : R.m02 = 0) (h12 : R.m12 = 0)
    (V : List (List Vec2)) :
    ((V.map (List.map homogenizeVec)).map (List.map R.mulVec)).map
        (List.map dehomogenizeVec) =
      V.map (List.map (rot2 R)) := by
  rw [List.map_map, List.map_map]
  refine List.map_congr_left fun row _ => ?_
  simpa [Function.comp] using row_rot_eq R h02 h12 row

/-- Homogenize, translate, rotate, dehomogenize over a whole batch of
rows. -/
theorem batch_trans_eq (R : Mat3) (h02 : R.m02 = 0) (h12 : R.m12 = 0)
    (tp : List Vec2) (P : List (List Vec2)) :
    (((P.map (List.map homogenizeVec)).map fun row =>
            List.zipWith (fun c v => (translationMat c).mulVec v) tp
              row).map (List.map R.mulVec)).map
        (List.map dehomogenizeVec) =
      P.map fun row => List.zipWith (fun c v => rot2 R (v - c)) tp row := by
  rw [List.map_map, List.map_map, List.map_map]
  refine List.map_congr_left fun row _ => ?_
  simpa [Function.comp] using row_trans_eq R h02 h12 tp row

namespace AgentCenter

/-- The concatenated positions array `positions` built by `apply`. -/
def positionsCat {ρ : Type} (d : Datum ρ) : List (List Vec2) :=
  List.zipWith (· ++ ·) d.p_in d.p_out

/-- The target agent's concatenated position row. -/
def targetRow {ρ : Type} (d : Datum ρ) (i : ℕ) : List Vec2 :=
  (positionsCat d).getD i []

/-- The rotation matrix `apply` computes for target index `i`. -/
noncomputable def rotOf {ρ : Type} (d : Datum ρ) (i : ℕ) : Mat3 :=
  get_rotation_matrix (targetRow d i)

/-- The input length `apply` splits at. -/
def inLen {ρ : Type} (d : Datum ρ) : ℕ := (d.p_in.headD []).length

/-- The fully transformed (translated and rotated) positions batch,
with the target row overwritten by the rotated offsets. -/
noncomputable def transPositions {ρ : Type} (d : Datum ρ) (i : ℕ) :
    List (List Vec2) :=
  ((positionsCat d).map fun row =>
      List.zipWith (fun c v => rot2 (rotOf d i) (v - c)) (targetRow d i)
        row).set i
    (((0 : ℝ), (0 : ℝ)) ::
      (pairwiseDiff (targetRow d i)).map (rot2 (rotOf d i)))

/-- The rotated velocities batch. -/
noncomputable def transVelocities {ρ : Type} (d : Datum ρ) (i : ℕ) :
    List (List Vec2) :=
  (List.zipWith (· ++ ·) d.v_in d.v_out).map
    (List.map (rot2 (rotOf d i)))

/-- Characterization of `applyAux`: every field of the returned datum,
written without homogeneous coordinates. -/
theorem applyAux_eq {ρ : Type} (d : Datum ρ) (i : ℕ) :
    applyAux d i =
      { d with
        p_in := (transPositions d i).map (List.take (inLen d))
        v_in := (transVelocities d i).map (List.take (inLen d))
        p_out := ((transPositions d i).map (List.drop (inLen d))).map
          cumsum
        v_out := (transVelocities d i).map (List.drop (inLen d))
        lane := d.lane.map (rot2 (rotOf d i))
        lane_norm := d.lane_norm.map (rot2 (rotOf d i))
        prediction_correction := inverse } := by
  simp only [applyAux, transPositions, transVelocities, rotOf, targetRow,
    positionsCat, inLen, getD_map_nil homogenizeVec]
  rw [batch_rot_eq _ (get_rotation_matrix_m02 _) (get_rotation_matrix_m12 _),
    batch_trans_eq _ (get_rotation_matrix_m02 _) (get_rotation_matrix_m12 _),
    row_rot_eq _ (get_rotation_matrix_m02 _) (get_rotation_matrix_m12 _),
    row_rot_eq _ (get_rotation_matrix_m02 _) (get_rotation_matrix_m12 _),
    offsets_eq]

end AgentCenter

/-! ## Claim theorems -/

/-- Concrete one-agent datum moving straight up (so the computed
rotation is the identity), used to instantiate hypotheses. -/
noncomputable def datumW : Datum Unit where
  track_id := [7]
  agent_id := 7
  p_in := [[((0 : ℝ), 0), (0, 1)]]
  v_in := [[((0 : ℝ), 0), (0, 0)]]
  p_out := [[((0 : ℝ), 2), (0, 3)]]
  v_out := [[((0 : ℝ), 0), (0, 0)]]
  lane := [((1 : ℝ), 0)]
  lane_norm := [((0 : ℝ), 1)]
  prediction_correction := fun p _ => p
  rest := ()

/-- Claim C5: for a model config whose name is SimpleMLP, SimpleRNN or
Seq2Seq, `BaseModel` forwards exactly as the corresponding submodel
constructed from the same two configs: model selection is pure
conditional dispatch on the configured name, covering exactly these
three models. -/
theorem C5_base_model_dispatch {DC I O : Type} (sub : SubModels DC I O)
    (mc : ModelConfig) (dc : DC) (x : I) :
    (mc.name = "SimpleMLP" →
      (BaseModel.init sub mc dc).forward x =
        some (sub.simpleMLP mc dc x)) ∧
    (mc.name = "SimpleRNN" →
      (BaseModel.init sub mc dc).forward x =
        some (sub.simpleRNN mc dc x)) ∧
    (mc.name = "Seq2Seq" →
      (BaseModel.init sub mc dc).forward x =
        some (sub.seq2seq mc dc x)) := by
  refine ⟨fun h => ?_, fun h => ?_, fun h => ?_⟩ <;>
    simp [BaseModel.init, BaseModel.forward, h]

/-- Additive-successor submodels over natural numbers, used to
instantiate the dispatch claims. -/
def subW : SubModels ℕ ℕ ℕ where
  simpleMLP := fun _ _ n => n + 1
  simpleRNN := fun _ _ n => n + 2
  seq2seq := fun _ _ n => n + 3

/-- A model config selecting the MLP. -/
def mcMLP : ModelConfig := ⟨"SimpleMLP", "cpu"⟩

/-- A model config with a name no branch recognizes. -/
def mcBad : ModelConfig := ⟨"Transformer", "cpu"⟩

/-- Witness for C5: dispatch evaluated on the SimpleMLP branch. -/
theorem C5_base_model_dispatch_witness :
    (BaseModel.init subW mcMLP 0).forward 5 =
      some (subW.simpleMLP mcMLP 0 5) :=
  (C5_base_model_dispatch subW mcMLP 0 5).1 rfl

/-- Claim C10: for a model config whose name is none of the three known
names, the constructor still succeeds but never assigns the model
attribute, so every subsequent forward call fails instead of the
unknown name being reported at construction time. -/
theorem C10_unknown_model_name {DC I O : Type} (sub : SubModels DC I O)
    (mc : ModelConfig) (dc : DC)
    (h1 : mc.name ≠ "SimpleMLP") (h2 : mc.name ≠ "SimpleRNN")
    (h3 : mc.name ≠ "Seq2Seq") :
    (BaseModel.init sub mc dc).model = none ∧
      ∀ x : I, (BaseModel.init sub mc dc).forward x = none := by
  have hm : (BaseModel.init sub mc dc).model = none := by
    simp [BaseModel.init, h1, h2, h3]
  exact ⟨hm, fun x => by simp [BaseModel.forward, hm]⟩

/-- Witness for C10: an unknown name evaluated concretely. -/
theorem C10_unknown_model_name_witness :
    (BaseModel.init subW mcBad 0).model = none ∧
      (BaseModel.init subW mcBad 0).forward 5 = none :=
  ⟨(C10_unknown_model_name subW mcBad 0 (by decide) (by decide)
      (by decide)).1,
   (C10_unknown_model_name subW mcBad 0 (by decide) (by decide)
      (by decide)).2 5⟩

/-- Claim C6: `AgentCenter.apply` updates only the keys p_in, v_in,
p_out, v_out, lane, lane_norm and prediction_correction; every other
key of the datum, in particular track_id and agent_id, is left
unchanged. -/
theorem C6_apply_updates_only_transformed_keys {ρ : Type} (d : Datum ρ)
    (i : ℕ)
    (h : List.findIdx? (· == d.agent_id) d.track_id = some i) :
    (AgentCenter.apply d).map
        (fun dt => (dt.track_id, dt.agent_id, dt.rest)) =
      some (d.track_id, d.agent_id, d.rest) := by
  rw [AgentCenter.apply_eq_some d i h, Option.map_some',
    AgentCenter.applyAux_eq]

/-- Witness for C6 at a concrete one-agent datum. -/
theorem C6_apply_updates_only_transformed_keys_witness :
    List.findIdx? (· == datumW.agent_id) datumW.track_id = some 0 ∧
      (AgentCenter.apply datumW).map
          (fun dt => (dt.track_id, dt.agent_id, dt.rest)) =
        some (datumW.track_id, datumW.agent_id, datumW.rest) :=
  ⟨rfl, C6_apply_updates_only_transformed_keys datumW 0 rfl⟩

/-- Claim C9: `angle_filter` returns a list of the same length in which
each element consists of exactly those rows of the corresponding input
whose norm-direction angle `atan2(norm_y, norm_x)` (columns 2 and 3) is
strictly positive, kept in their original order and unmodified. -/
theorem C9_angle_filter_keeps_up_lanes (lanes : List (List Vec4)) :
    (angle_filter lanes).length = lanes.length ∧
      ∀ i : ℕ,
        ((angle_filter lanes).getD i []).Sublist (lanes.getD i []) ∧
          ∀ r : Vec4,
            r ∈ (angle_filter lanes).getD i [] ↔
              r ∈ lanes.getD i [] ∧ arctan2 r.2.2.2 r.2.2.1 > 0 := by
  refine ⟨by simp [angle_filter], fun i => ?_⟩
  by_cases hi : i < lanes.length
  · rw [show (angle_filter lanes).getD i [] =
        (lanes.getD i []).filter
          (fun row =>
            @decide (arctan2 row.2.2.2 row.2.2.1 > 0)
              (Classical.propDecidable _)) from
      getD_map_of_lt _ [] [] lanes i hi]
    refine ⟨List.filter_sublist _, fun r => ?_⟩
    rw [List.mem_filter]
    simp
  · have h1 : (angle_filter lanes).getD i [] = [] :=
      List.getD_eq_default _ _ (by simp [angle_filter]; omega)
    have h2 : lanes.getD i [] = [] :=
      List.getD_eq_default _ _ (by omega)
    rw [h1, h2]
    simp

/-- Claim C7: for every target trajectory whose first and last entries
differ, the rotation matrix maps the heading vector (last position
minus first position) onto the positive y-axis: the x-component of the
rotated vector is zero and its y-component is the vector's norm. -/
theorem C7_rotation_aligns_heading (positions : List Vec2)
    (h : positions.getLastD (0, 0) ≠ positions.headD (0, 0)) :
    (rot2 (AgentCenter.get_rotation_matrix positions)
        (positions.getLastD (0, 0) - positions.headD (0, 0))).1 = 0 ∧
      (rot2 (AgentCenter.get_rotation_matrix positions)
          (positions.getLastD (0, 0) - positions.headD (0, 0))).2 =
        Real.sqrt
          (((positions.getLastD (0, 0)).1 -
              (positions.headD (0, 0)).1) ^ 2 +
            ((positions.getLastD (0, 0)).2 -
              (positions.headD (0, 0)).2) ^ 2) := by
  set a := positions.headD (0, 0) with ha
  set b := positions.getLastD (0, 0) with hb
  set z : ℂ := ⟨b.1 - a.1, b.2 - a.2⟩ with hzdef
  have hz : z ≠ 0 := by
    intro h0
    apply h
    have h1 : b.1 - a.1 = 0 := congrArg Complex.re h0
    have h2 : b.2 - a.2 = 0 := congrArg Complex.im h0
    exact Prod.ext (by linarith) (by linarith)
  have habs : Complex.abs z =
      Real.sqrt ((b.1 - a.1) ^ 2 + (b.2 - a.2) ^ 2) := by
    rw [Complex.abs_apply, Complex.normSq_apply]
    congr 1
    simp [hzdef]
    ring
  have habs_pos : 0 < Complex.abs z := by
    simpa [Complex.abs.pos_iff] using hz
  have hcos :
      Real.cos (-arctan2 (b.2 - a.2) (b.1 - a.1) + Real.pi / 2) =
        (b.2 - a.2) / Complex.abs z := by
    rw [neg_add_eq_sub, Real.cos_pi_div_two_sub, arctan2, Complex.sin_arg]
  have hsin :
      Real.sin (-arctan2 (b.2 - a.2) (b.1 - a.1) + Real.pi / 2) =
        (b.1 - a.1) / Complex.abs z := by
    rw [neg_add_eq_sub, Real.sin_pi_div_two_sub, arctan2,
      Complex.cos_arg hz]
  constructor
  · simp only [AgentCenter.get_rotation_matrix, rot2, hcos, hsin,
      Prod.fst_sub, Prod.snd_sub]
    field_simp
    ring
  · simp only [AgentCenter.get_rotation_matrix, rot2, hcos, hsin,
      Prod.fst_sub, Prod.snd_sub]
    rw [← habs]
    have hsq : (b.1 - a.1) * (b.1 - a.1) + (b.2 - a.2) * (b.2 - a.2) =
        Complex.abs z ^ 2 := by
      rw [Complex.sq_abs, Complex.normSq_apply]
    field_simp
    linarith [hsq]

/-- Witness for C7: a trajectory from the origin straight up. -/
theorem C7_rotation_aligns_heading_witness :
    ([((0 : ℝ), 0), (0, 1)].getLastD (0, 0) ≠
        [((0 : ℝ), 0), (0, 1)].headD (0, 0)) ∧
      ((rot2 (AgentCenter.get_rotation_matrix [((0 : ℝ), 0), (0, 1)])
          ([((0 : ℝ), 0), (0, 1)].getLastD (0, 0) -
            [((0 : ℝ), 0), (0, 1)].headD (0, 0))).1 = 0 ∧
        (rot2 (AgentCenter.get_rotation_matrix [((0 : ℝ), 0), (0, 1)])
            ([((0 : ℝ), 0), (0, 1)].getLastD (0, 0) -
              [((0 : ℝ), 0), (0, 1)].headD (0, 0))).2 =
          Real.sqrt
            ((([((0 : ℝ), 0), (0, 1)].getLastD (0, 0)).1 -
                ([((0 : ℝ), 0), (0, 1)].headD (0, 0)).1) ^ 2 +
              (([((0 : ℝ), 0), (0, 1)].getLastD (0, 0)).2 -
                ([((0 : ℝ), 0), (0, 1)].headD (0, 0)).2) ^ 2)) :=
  ⟨by simp, C7_rotation_aligns_heading [((0 : ℝ), 0), (0, 1)] (by simp)⟩

/-- Claim C4: `apply` carries the velocities into the rotated frame:
after `apply`, each entry of v_in and v_out is the rotation matrix
applied to the corresponding original velocity (the concatenated
velocities are transformed and split back at the original input
length). -/
theorem C4_velocities_rotated {ρ : Type} (d : Datum ρ) (i a t k : ℕ)
    (h : List.findIdx? (· == d.agent_id) d.track_id = some i)
    (hvlen : d.v_in.length = d.v_out.length)
    (ha : a < d.v_in.length)
    (hrowin : (d.v_in.getD a []).length = (d.p_in.headD []).length)
    (ht : t < (d.p_in.headD []).length)
    (hk : k < (d.v_out.getD a []).length) :
    ((AgentCenter.apply d).map
        (fun dt => (dt.v_in.getD a []).getD t 0)) =
      some (rot2 (AgentCenter.rotOf d i) ((d.v_in.getD a []).getD t 0)) ∧
    ((AgentCenter.apply d).map
        (fun dt => (dt.v_out.getD a []).getD k 0)) =
      some (rot2 (AgentCenter.rotOf d i) ((d.v_out.getD a []).getD k 0)) := by
  have hlenTV : (AgentCenter.transVelocities d i).length = d.v_in.length := by
    simp [AgentCenter.transVelocities, List.length_zipWith, hvlen]
  have hrow : (AgentCenter.transVelocities d i).getD a [] =
      (d.v_in.getD a [] ++ d.v_out.getD a []).map
        (rot2 (AgentCenter.rotOf d i)) := by
    unfold AgentCenter.transVelocities
    rw [getD_map_nil]
    congr 1
    exact getD_zipWith_of_lt (· ++ ·) [] [] [] _ _ a ha (hvlen ▸ ha)
  rw [AgentCenter.apply_eq_some d i h, Option.map_some', Option.map_some',
    AgentCenter.applyAux_eq]
  constructor
  · refine congrArg some ?_
    show ((((AgentCenter.transVelocities d i).map
        (List.take (AgentCenter.inLen d))).getD a []).getD t 0) = _
    rw [getD_map_of_lt (List.take (AgentCenter.inLen d)) [] [] _ a
      (by rw [hlenTV]; exact ha), hrow,
      getD_take_of_lt 0 _ (AgentCenter.inLen d) t ht,
      getD_map_of_lt (rot2 (AgentCenter.rotOf d i)) 0 0 _ t
        (by rw [List.length_append, hrowin]; omega),
      List.getD_append _ _ _ _ (by rw [hrowin]; exact ht)]
  · refine congrArg some ?_
    show ((((AgentCenter.transVelocities d i).map
        (List.drop (AgentCenter.inLen d))).getD a []).getD k 0) = _
    rw [getD_map_of_lt (List.drop (AgentCenter.inLen d)) [] [] _ a
      (by rw [hlenTV]; exact ha), hrow, getD_drop_eq,
      getD_map_of_lt (rot2 (AgentCenter.rotOf d i)) 0 0 _ _
        (by rw [List.length_append, hrowin]; unfold AgentCenter.inLen; omega),
      List.getD_append_right _ _ _ _
        (by rw [hrowin]; unfold AgentCenter.inLen; omega)]
    congr 2
    rw [hrowin]
    unfold AgentCenter.inLen
    omega

/-- Witness for C4 at a concrete one-agent datum. -/
theorem C4_velocities_rotated_witness :
    List.findIdx? (· == datumW.agent_id) datumW.track_id = some 0 ∧
    datumW.v_in.length = datumW.v_out.length ∧
    0 < datumW.v_in.length ∧
    (datumW.v_in.getD 0 []).length = (datumW.p_in.headD []).length ∧
    0 < (datumW.p_in.headD []).length ∧
    0 < (datumW.v_out.getD 0 []).length ∧
    (((AgentCenter.apply datumW).map
        (fun dt => (dt.v_in.getD 0 []).getD 0 0)) =
      some (rot2 (AgentCenter.rotOf datumW 0)
        ((datumW.v_in.getD 0 []).getD 0 0)) ∧
    ((AgentCenter.apply datumW).map
        (fun dt => (dt.v_out.getD 0 []).getD 0 0)) =
      some (rot2 (AgentCenter.rotOf datumW 0)
        ((datumW.v_out.getD 0 []).getD 0 0))) :=
  ⟨rfl, rfl, by decide, by decide, by decide, by decide,
   C4_velocities_rotated datumW 0 0 0 0 rfl rfl (by decide) (by decide)
     (by decide) (by decide)⟩

/-- A trajectory whose heading is straight up gives the identity as
rotation matrix (the angle `θ` collapses to `0`). -/
theorem get_rotation_matrix_vertical (ps : List Vec2)
    (h1 : (ps.getLastD (0, 0)).1 = (ps.headD (0, 0)).1)
    (h2 : (ps.headD (0, 0)).2 < (ps.getLastD (0, 0)).2) :
    AgentCenter.get_rotation_matrix ps = eye3 := by
  simp only [AgentCenter.get_rotation_matrix]
  set a := ps.headD (0, 0) with hadef
  set b := ps.getLastD (0, 0) with hbdef
  have harg : arctan2 (b.2 - a.2) (b.1 - a.1) = Real.pi / 2 := by
    rw [arctan2]
    have hmk : (⟨b.1 - a.1, b.2 - a.2⟩ : ℂ) =
        ((b.2 - a.2 : ℝ) : ℂ) * Complex.I := by
      apply Complex.ext <;> simp [h1]
    rw [hmk, Complex.arg_real_mul _ (by linarith), Complex.arg_I]
  rw [harg]
  have hth : -(Real.pi / 2) + Real.pi / 2 = 0 := by ring
  rw [hth, Real.cos_zero, Real.sin_zero]
  simp [eye3]

/-- Concrete one-agent datum whose target sits away from the origin
(positions at x = 5) while still heading straight up, so the rotation
matrix is the identity and any translation would be visible. -/
noncomputable def datumC3 : Datum Unit where
  track_id := [7]
  agent_id := 7
  p_in := [[((5 : ℝ), 5), (5, 6)]]
  v_in := [[((0 : ℝ), 0), (0, 0)]]
  p_out := [[((5 : ℝ), 7), (5, 8)]]
  v_out := [[((0 : ℝ), 0), (0, 0)]]
  lane := [((1 : ℝ), 0)]
  lane_norm := [((0 : ℝ), 1)]
  prediction_correction := fun p _ => p
  rest := ()

/-- The rotation matrix of `datumC3` is the identity. -/
theorem rotOf_datumC3 : AgentCenter.rotOf datumC3 0 = eye3 := by
  unfold AgentCenter.rotOf
  apply get_rotation_matrix_vertical <;>
    simp [AgentCenter.targetRow, AgentCenter.positionsCat, datumC3]
  norm_num

/-- Claim C3, amended: `apply` performs only the rotation part of the
homogeneous-coordinate transformation on the lane geometry: after
`apply`, lane and lane_norm equal the original lane points and lane
norms rotated by the rotation matrix; they are not translated into the
agent-centered frame. -/
theorem C3_lanes_rotated_not_translated {ρ : Type} (d : Datum ρ) (i : ℕ)
    (h : List.findIdx? (· == d.agent_id) d.track_id = some i) :
    (AgentCenter.apply d).map Datum.lane =
      some (d.lane.map (rot2 (AgentCenter.rotOf d i))) ∧
    (AgentCenter.apply d).map Datum.lane_norm =
      some (d.lane_norm.map (rot2 (AgentCenter.rotOf d i))) := by
  rw [AgentCenter.apply_eq_some d i h, Option.map_some', Option.map_some',
    AgentCenter.applyAux_eq]
  exact ⟨rfl, rfl⟩

/-- Counterexample to claim C3 as stated: at `datumC3` the rotation is
the identity and the target agent sits at (5, 5) at the first timestep,
yet the lane point (1, 0) is returned unchanged instead of being
translated into the agent-centered frame. -/
theorem C3_counterexample :
    (AgentCenter.apply datumC3).map Datum.lane = some [((1 : ℝ), 0)] ∧
      some [((1 : ℝ), 0)] ≠
        some [rot2 (AgentCenter.rotOf datumC3 0)
          ((((1 : ℝ), 0) : Vec2) - ((5 : ℝ), 5))] := by
  constructor
  · rw [AgentCenter.apply_eq_some datumC3 0 rfl, Option.map_some',
      AgentCenter.applyAux_eq, rotOf_datumC3]
    simp [datumC3, rot2, eye3]
  · rw [rotOf_datumC3]
    simp only [ne_eq, Option.some.injEq, List.cons.injEq, and_true,
      rot2, eye3, Prod.mk_sub_mk, Prod.mk.injEq]
    norm_num

/-- Witness for the amended C3 at a concrete one-agent datum. -/
theorem C3_lanes_rotated_not_translated_witness :
    List.findIdx? (· == datumW.agent_id) datumW.track_id = some 0 ∧
      ((AgentCenter.apply datumW).map Datum.lane =
        some (datumW.lane.map (rot2 (AgentCenter.rotOf datumW 0))) ∧
      (AgentCenter.apply datumW).map Datum.lane_norm =
        some (datumW.lane_norm.map (rot2 (AgentCenter.rotOf datumW 0)))) :=
  ⟨rfl, C3_lanes_rotated_not_translated datumW 0 rfl⟩

/-- Length of the transformed positions batch. -/
theorem AgentCenter.length_transPositions {ρ : Type} (d : Datum ρ)
    (i : ℕ) :
    (AgentCenter.transPositions d i).length =
      min d.p_in.length d.p_out.length := by
  simp [AgentCenter.transPositions, AgentCenter.positionsCat,
    List.length_set, List.length_zipWith]

/-- A row of the concatenated positions array is the concatenation of
the agent's input and output rows. -/
theorem AgentCenter.rowCat_eq {ρ : Type} (d : Datum ρ) (a : ℕ)
    (hlen : d.p_in.length = d.p_out.length) (ha : a < d.p_in.length) :
    (AgentCenter.positionsCat d).getD a [] =
      d.p_in.getD a [] ++ d.p_out.getD a [] := by
  unfold AgentCenter.positionsCat
  exact getD_zipWith_of_lt (· ++ ·) [] [] [] _ _ a ha (hlen ▸ ha)

/-- The target row is the concatenation of the target's input and
output rows. -/
theorem AgentCenter.targetRow_eq {ρ : Type} (d : Datum ρ) (i : ℕ)
    (hlen : d.p_in.length = d.p_out.length) (hi : i < d.p_in.length) :
    AgentCenter.targetRow d i =
      d.p_in.getD i [] ++ d.p_out.getD i [] :=
  AgentCenter.rowCat_eq d i hlen hi

/-- A non-target row of the transformed positions batch is the
translated-and-rotated concatenated row of that agent. -/
theorem AgentCenter.transPositions_getD_ne {ρ : Type} (d : Datum ρ)
    (i a : ℕ) (hlen : d.p_in.length = d.p_out.length)
    (ha : a < d.p_in.length) (hne : a ≠ i) :
    (AgentCenter.transPositions d i).getD a [] =
      List.zipWith (fun c v => rot2 (AgentCenter.rotOf d i) (v - c))
        (AgentCenter.targetRow d i)
        ((AgentCenter.positionsCat d).getD a []) := by
  unfold AgentCenter.transPositions
  rw [getD_set_ne _ _ _ i a (Ne.symm hne),
    getD_map_of_lt _ [] [] _ a
      (by unfold AgentCenter.positionsCat
          rw [List.length_zipWith]; omega)]

/-- Claim C2, amended: for every non-target agent `a`, the transformed
positions at the input timesteps are the original positions translated
to the target agent's frame at the same timestep and rotated once by
the single rotation matrix; the stored output row of agent `a` is the
cumulative sum, over output timesteps, of those translated-and-rotated
positions (rather than the translated-and-rotated positions
themselves). -/
theorem C2_other_agents_translated_rotated {ρ : Type} (d : Datum ρ)
    (i a t : ℕ)
    (h : List.findIdx? (· == d.agent_id) d.track_id = some i)
    (hlen : d.p_in.length = d.p_out.length)
    (hi : i < d.p_in.length)
    (ha : a < d.p_in.length)
    (hne : a ≠ i)
    (hrow : ∀ r ∈ d.p_in, r.length = AgentCenter.inLen d)
    (ht : t < AgentCenter.inLen d) :
    ((AgentCenter.apply d).map fun dt => (dt.p_in.getD a []).getD t 0) =
      some (rot2 (AgentCenter.rotOf d i)
        ((d.p_in.getD a []).getD t 0 - (d.p_in.getD i []).getD t 0)) ∧
    ((AgentCenter.apply d).map fun dt => dt.p_out.getD a []) =
      some (cumsum (List.zipWith
        (fun c p => rot2 (AgentCenter.rotOf d i) (p - c))
        (d.p_out.getD i []) (d.p_out.getD a []))) := by
  have hLi : (d.p_in.getD i []).length = AgentCenter.inLen d :=
    length_getD_of_forall _ _ _ hrow hi
  have hLa : (d.p_in.getD a []).length = AgentCenter.inLen d :=
    length_getD_of_forall _ _ _ hrow ha
  have htr := AgentCenter.transPositions_getD_ne d i a hlen ha hne
  have hcat := AgentCenter.rowCat_eq d a hlen ha
  have htgt := AgentCenter.targetRow_eq d i hlen hi
  rw [AgentCenter.apply_eq_some d i h, Option.map_some', Option.map_some',
    AgentCenter.applyAux_eq]
  constructor
  · refine congrArg some ?_
    show ((((AgentCenter.transPositions d i).map
        (List.take (AgentCenter.inLen d))).getD a []).getD t 0) = _
    rw [getD_map_of_lt (List.take (AgentCenter.inLen d)) [] [] _ a
        (by rw [AgentCenter.length_transPositions]; omega),
      getD_take_of_lt 0 _ _ t ht, htr,
      getD_zipWith_of_lt _ 0 0 0 _ _ t
        (by rw [htgt, List.length_append]; omega)
        (by rw [hcat, List.length_append]; omega),
      htgt, hcat,
      List.getD_append _ _ _ _ (by omega),
      List.getD_append _ _ _ _ (by omega)]
  · refine congrArg some ?_
    show ((((AgentCenter.transPositions d i).map
        (List.drop (AgentCenter.inLen d))).map cumsum).getD a []) = _
    rw [getD_map_of_lt cumsum [] [] _ a
        (by rw [List.length_map, AgentCenter.length_transPositions];
            omega),
      getD_map_of_lt (List.drop (AgentCenter.inLen d)) [] [] _ a
        (by rw [AgentCenter.length_transPositions]; omega),
      htr, htgt, hcat, List.drop_zipWith,
      show (d.p_in.getD i [] ++ d.p_out.getD i []).drop
          (AgentCenter.inLen d) = d.p_out.getD i [] by
        rw [← hLi, List.drop_left],
      show (d.p_in.getD a [] ++ d.p_out.getD a []).drop
          (AgentCenter.inLen d) = d.p_out.getD a [] by
        rw [← hLa, List.drop_left]]

/-- Concrete two-agent datum: the target (id 7) heads straight up from
the origin; agent 8 runs parallel at x = 1. -/
noncomputable def datumC2 : Datum Unit where
  track_id := [7, 8]
  agent_id := 7
  p_in := [[((0 : ℝ), 0), (0, 1)], [((1 : ℝ), 0), (1, 1)]]
  v_in := [[((0 : ℝ), 0), (0, 0)], [((0 : ℝ), 0), (0, 0)]]
  p_out := [[((0 : ℝ), 2), (0, 3)], [((1 : ℝ), 2), (1, 3)]]
  v_out := [[((0 : ℝ), 0), (0, 0)], [((0 : ℝ), 0), (0, 0)]]
  lane := [((1 : ℝ), 0)]
  lane_norm := [((0 : ℝ), 1)]
  prediction_correction := fun p _ => p
  rest := ()

/-- The rotation matrix of `datumC2` is the identity. -/
theorem rotOf_datumC2 : AgentCenter.rotOf datumC2 0 = eye3 := by
  unfold AgentCenter.rotOf
  apply get_rotation_matrix_vertical <;>
    simp [AgentCenter.targetRow, AgentCenter.positionsCat, datumC2]

/-- Counterexample to claim C2 as stated: at `datumC2` the rotation is
the identity, and at output step 1 the claim predicts agent 8's stored
position to be the translated position (1, 0); the code stores the
cumulative sum (2, 0) instead. -/
theorem C2_counterexample :
    ((AgentCenter.apply datumC2).map fun dt =>
        (dt.p_out.getD 1 []).getD 1 0) = some ((2 : ℝ), 0) ∧
      rot2 (AgentCenter.rotOf datumC2 0)
          ((((1 : ℝ), 3) : Vec2) - ((0 : ℝ), 3)) = ((1 : ℝ), 0) ∧
      (((2 : ℝ), 0) : Vec2) ≠ ((1 : ℝ), 0) := by
  refine ⟨?_, ?_, ?_⟩
  · rw [AgentCenter.apply_eq_some datumC2 0 rfl, Option.map_some',
      AgentCenter.applyAux_eq]
    simp only [AgentCenter.transPositions, AgentCenter.targetRow,
      AgentCenter.positionsCat, AgentCenter.inLen, rotOf_datumC2]
    simp [datumC2, rot2, eye3, cumsum, cumsumFrom, pairwiseDiff]
    norm_num
  · rw [rotOf_datumC2]
    norm_num [rot2, eye3, Prod.mk_sub_mk]
  · norm_num [Prod.mk.injEq]

/-- Witness for the amended C2 at the two-agent datum. -/
theorem C2_other_agents_translated_rotated_witness :
    List.findIdx? (· == datumC2.agent_id) datumC2.track_id = some 0 ∧
    datumC2.p_in.length = datumC2.p_out.length ∧
    0 < datumC2.p_in.length ∧
    1 < datumC2.p_in.length ∧
    (1 : ℕ) ≠ 0 ∧
    (∀ r ∈ datumC2.p_in, r.length = AgentCenter.inLen datumC2) ∧
    0 < AgentCenter.inLen datumC2 ∧
    (((AgentCenter.apply datumC2).map fun dt =>
        (dt.p_in.getD 1 []).getD 0 0) =
      some (rot2 (AgentCenter.rotOf datumC2 0)
        ((datumC2.p_in.getD 1 []).getD 0 0 -
          (datumC2.p_in.getD 0 []).getD 0 0)) ∧
    ((AgentCenter.apply datumC2).map fun dt => dt.p_out.getD 1 []) =
      some (cumsum (List.zipWith
        (fun c p => rot2 (AgentCenter.rotOf datumC2 0) (p - c))
        (datumC2.p_out.getD 0 []) (datumC2.p_out.getD 1 [])))) :=
  ⟨rfl, rfl, by decide, by decide, by decide, by decide, by decide,
   C2_other_agents_translated_rotated datumC2 0 1 0 rfl rfl (by decide)
     (by decide) (by decide) (by decide) (by decide)⟩

/-- Claim C8: the target agent's stored output row telescopes: entry
`k` of the target's p_out equals the rotation applied to (the target's
original position at concatenated timestep `L + k` minus its original
position at timestep `L - 1`), the cumulative sum over the per-timestep
offsets collapsing to the rotated displacement from the last input
position. -/
theorem C8_target_out_row_telescopes {ρ : Type} (d : Datum ρ) (i k : ℕ)
    (h : List.findIdx? (· == d.agent_id) d.track_id = some i)
    (hlen : d.p_in.length = d.p_out.length)
    (hi : i < d.p_in.length)
    (hLi : (d.p_in.getD i []).length = AgentCenter.inLen d)
    (hL : 1 ≤ AgentCenter.inLen d)
    (hk : k < (d.p_out.getD i []).length) :
    ((AgentCenter.apply d).map fun dt => (dt.p_out.getD i []).getD k 0) =
      some (rot2 (AgentCenter.rotOf d i)
        ((d.p_out.getD i []).getD k 0 -
          (d.p_in.getD i []).getD (AgentCenter.inLen d - 1) 0)) := by
  have htgt := AgentCenter.targetRow_eq d i hlen hi
  have htgtlen : (AgentCenter.targetRow d i).length =
      AgentCenter.inLen d + (d.p_out.getD i []).length := by
    rw [htgt, List.length_append, hLi]
  have hset : (AgentCenter.transPositions d i).getD i [] =
      ((0 : ℝ), (0 : ℝ)) ::
        (pairwiseDiff (AgentCenter.targetRow d i)).map
          (rot2 (AgentCenter.rotOf d i)) := by
    unfold AgentCenter.transPositions
    exact getD_set_self _ _ _ i
      (by rw [List.length_map]
          unfold AgentCenter.positionsCat
          rw [List.length_zipWith]; omega)
  have hmapdiff :
      (pairwiseDiff (AgentCenter.targetRow d i)).map
          (rot2 (AgentCenter.rotOf d i)) =
        pairwiseDiff ((AgentCenter.targetRow d i).map
          (rot2 (AgentCenter.rotOf d i))) :=
    (pairwiseDiff_map _ _ (fun a b => (rot2_sub _ a b).symm) _).symm
  obtain ⟨m, hm⟩ : ∃ m, AgentCenter.inLen d = m + 1 :=
    ⟨AgentCenter.inLen d - 1, by omega⟩
  rw [AgentCenter.apply_eq_some d i h, Option.map_some',
    AgentCenter.applyAux_eq]
  refine congrArg some ?_
  show ((((AgentCenter.transPositions d i).map
      (List.drop (AgentCenter.inLen d))).map cumsum).getD i []).getD k 0 = _
  rw [getD_map_of_lt cumsum [] [] _ i
      (by rw [List.length_map, AgentCenter.length_transPositions]; omega),
    getD_map_of_lt (List.drop (AgentCenter.inLen d)) [] [] _ i
      (by rw [AgentCenter.length_transPositions]; omega),
    hset, hmapdiff, hm, List.drop_succ_cons,
    cumsum_pairwiseDiff_getD _ m k
      (by rw [List.length_map, htgtlen]; omega),
    getD_map_of_lt (rot2 (AgentCenter.rotOf d i)) 0 0 _ _
      (by rw [htgtlen]; omega),
    getD_map_of_lt (rot2 (AgentCenter.rotOf d i)) 0 0 _ _
      (by rw [htgtlen]; omega),
    ← rot2_sub, htgt,
    show m + k + 1 = AgentCenter.inLen d + k by omega,
    List.getD_append_right _ _ _ _ (by omega),
    List.getD_append _ _ _ _ (by omega),
    show AgentCenter.inLen d + k - (d.p_in.getD i []).length = k by
      rw [hLi]; omega,
    show m = AgentCenter.inLen d - 1 by omega,
    show AgentCenter.inLen d - 1 + 1 - 1 = AgentCenter.inLen d - 1 from
      by omega]

/-- Witness for C8 at a concrete one-agent datum. -/
theorem C8_target_out_row_telescopes_witness :
    List.findIdx? (· == datumW.agent_id) datumW.track_id = some 0 ∧
    datumW.p_in.length = datumW.p_out.length ∧
    0 < datumW.p_in.length ∧
    (datumW.p_in.getD 0 []).length = AgentCenter.inLen datumW ∧
    1 ≤ AgentCenter.inLen datumW ∧
    1 < (datumW.p_out.getD 0 []).length ∧
    ((AgentCenter.apply datumW).map fun dt =>
        (dt.p_out.getD 0 []).getD 1 0) =
      some (rot2 (AgentCenter.rotOf datumW 0)
        ((datumW.p_out.getD 0 []).getD 1 0 -
          (datumW.p_in.getD 0 []).getD (AgentCenter.inLen datumW - 1) 0)) :=
  ⟨rfl, rfl, by decide, by decide, by decide, by decide,
   C8_target_out_row_telescopes datumW 0 1 rfl rfl (by decide) (by decide)
     (by decide) (by decide)⟩

/-- The rotation matrix of `datumW` is the identity. -/
theorem rotOf_datumW : AgentCenter.rotOf datumW 0 = eye3 := by
  unfold AgentCenter.rotOf
  apply get_rotation_matrix_vertical <;>
    simp [AgentCenter.targetRow, AgentCenter.positionsCat, datumW]

/-- Claim C1 exhibit: at `datumW` the computed rotation is the
identity, and the stored prediction-correction function applied to the
model output equal to the stored transformed output positions returns
their cumulative sum [[(0,1), (0,3)]], not the original
pre-transformation output positions [[(0,2), (0,3)]]: `inverse` only
cumulative-sums the predictions and ignores the metadata, so the
transformation `apply` performed is not undone. -/
theorem C1_inverse_does_not_restore :
    ((AgentCenter.apply datumW).map fun dt =>
        dt.prediction_correction dt.p_out Metadata.mk) =
      some [[((0 : ℝ), 1), (0, 3)]] ∧
      datumW.p_out = [[((0 : ℝ), 2), (0, 3)]] ∧
      some [[((0 : ℝ), 1), (0, 3)]] ≠ some [[((0 : ℝ), 2), (0, 3)]] := by
  refine ⟨?_, rfl, ?_⟩
  · rw [AgentCenter.apply_eq_some datumW 0 rfl, Option.map_some',
      AgentCenter.applyAux_eq]
    simp only [AgentCenter.transPositions, AgentCenter.targetRow,
      AgentCenter.positionsCat, AgentCenter.inLen, rotOf_datumW]
    simp [datumW, AgentCenter.inverse, rot2, eye3, cumsum, cumsumFrom,
      pairwiseDiff]
    norm_num
  · simp only [ne_eq, Option.some.injEq, List.cons.injEq, and_true,
      Prod.mk.injEq, true_and]
    norm_num
